import Mathlib

/-!
Shallow embedding of the Alpha_Intelligence stock correlation heatmap script
(`Alphaintellegence_stock correlation heatmap.py`) and proofs about it.

Prices are modelled as exact rationals; a missing value (pandas `NaN`) is
modelled as `none`.  Correlation values live in `Option ℝ` because Pearson
correlation divides by a square root.
-/

namespace AlphaIntelligence

/-- The fixed name → ticker dictionary `company_symbols` from `fetch_stock_data`. -/
def company_symbols : List (String × String) :=
  [("Apple", "AAPL"),
   ("Microsoft", "MSFT"),
   ("Amazon", "AMZN"),
   ("Alphabet", "GOOGL"),
   ("Meta", "META"),
   ("Tesla", "TSLA"),
   ("Nvidia", "NVDA"),
   ("JPMorgan Chase", "JPM"),
   ("Walmart", "WMT"),
   ("ExxonMobil", "XOM"),
   ("Johnson & Johnson", "JNJ"),
   ("Visa", "V"),
   ("Mastercard", "MA"),
   ("Intel", "INTC"),
   ("Coca-Cola", "KO")]

/-- The Symbol Resolver: `company_symbols.get(company, company)` in
`fetch_stock_data` — return the ticker for a known display name and the
input itself otherwise. -/
def resolve (company : String) : String :=
  match company_symbols.lookup company with
  | some s => s
  | none => company

/-- Embeds `symbols = [company_symbols.get(company, company) for company in companies]`. -/
def resolve_all (companies : List String) : List String :=
  companies.map resolve

/-- The `available_companies` list printed by `main` and used for validation. -/
def available_companies : List String :=
  ["Apple", "Microsoft", "Amazon", "Alphabet", "Meta",
   "Tesla", "Nvidia", "JPMorgan Chase", "Walmart", "ExxonMobil",
   "Johnson & Johnson", "Visa", "Mastercard", "Intel", "Coca-Cola"]

/-- A price table: one `(column name, price series)` per company, as produced
by `yf.download(...)["Adj Close"]`.  Rows are aligned by position. -/
structure DataFrame where
  cols : List (String × List ℚ)

/-- Pandas `Series.pct_change`: entry 0 is missing, entry `t ≥ 1` is
`(price[t] - price[t-1]) / price[t-1]`. -/
def pct_change (prices : List ℚ) : List (Option ℚ) :=
  match prices with
  | [] => []
  | _ :: tail =>
      none :: (prices.zip tail).map (fun pq => some ((pq.2 - pq.1) / pq.1))

/-- Rows where both series have a value — pandas pairwise-complete
observation handling inside `DataFrame.corr`. -/
def completePairs : List (Option ℚ) → List (Option ℚ) → List (ℚ × ℚ)
  | some a :: xs, some b :: ys => (a, b) :: completePairs xs ys
  | _ :: xs, _ :: ys => completePairs xs ys
  | _, _ => []

/-- Arithmetic mean of a list of rationals (0 for the empty list). -/
def mean (l : List ℚ) : ℚ := l.sum / l.length

/-- Sum of products of deviations from the mean:
`Σ (f p - mean f) * (g p - mean g)` over the complete pairs.  With
`f = g = Prod.fst` this is the (unnormalised) variance of the first series,
with `f = Prod.fst, g = Prod.snd` the covariance. -/
def centeredSum (l : List (ℚ × ℚ)) (f g : ℚ × ℚ → ℚ) : ℚ :=
  (l.map (fun p => (f p - mean (l.map f)) * (g p - mean (l.map g)))).sum

/-- Pearson correlation of two aligned series with missing values, as
computed by `DataFrame.corr`: pairwise-complete rows, `NaN` (here `none`)
when either series has zero variance over those rows, otherwise
`cov / sqrt(var_x * var_y)`. -/
noncomputable def corr_entry (xs ys : List (Option ℚ)) : Option ℝ :=
  if centeredSum (completePairs xs ys) Prod.fst Prod.fst = 0 ∨
      centeredSum (completePairs xs ys) Prod.snd Prod.snd = 0 then
    none
  else
    some (((centeredSum (completePairs xs ys) Prod.fst Prod.snd : ℚ) : ℝ) /
      Real.sqrt (((centeredSum (completePairs xs ys) Prod.fst Prod.fst : ℚ) : ℝ) *
        ((centeredSum (completePairs xs ys) Prod.snd Prod.snd : ℚ) : ℝ)))

/-- Embeds `data.pct_change()`: the Returns Table, column by column. -/
def returns_table (data : DataFrame) : List (String × List (Option ℚ)) :=
  data.cols.map (fun c => (c.1, pct_change c.2))

/-- Embeds `data.pct_change().corr()`: the correlation matrix, one row and one
column per column of `data`. -/
noncomputable def correlation_matrix (data : DataFrame) : List (List (Option ℝ)) :=
  (returns_table data).map (fun ci =>
    (returns_table data).map (fun cj => corr_entry ci.2 cj.2))

/-- The keyword arguments of the `sns.heatmap(...)` call plus the figure
title set by `create_correlation_heatmap`. -/
structure HeatmapCall where
  annot : Bool
  cmap : String
  center : ℚ
  vmin : ℚ
  vmax : ℚ
  square : Bool
  linewidths : ℚ
  title : String

/-- Embeds `create_correlation_heatmap`: computes `data.pct_change().corr()`,
renders it with `sns.heatmap(correlation_matrix, annot=True, cmap="Blues",
center=0, vmin=-1, vmax=1, square=True, linewidths=0.5)` under the title
`"Stock Price Correlation Heatmap"`, and returns the matrix. -/
noncomputable def create_correlation_heatmap (data : DataFrame) :
    HeatmapCall × List (List (Option ℝ)) :=
  (⟨true, "Blues", 0, -1, 1, true, 1/2, "Stock Price Correlation Heatmap"⟩,
   correlation_matrix data)

/-- One panel drawn by `create_candlestick_charts` for one company:
title/labels and, per trading day, whether the day gets the green `^`
marker (`stock_data_pct > 0`) and whether it gets the red `v` marker
(`stock_data_pct < 0`).  A `NaN` change (day 0) compares as false. -/
structure ChartPanel where
  title : String
  xlabel : String
  ylabel : String
  positive_changes : List Bool
  negative_changes : List Bool

/-- The body of the `for i, company in enumerate(companies)` loop of
`create_candlestick_charts`, for the price series of one company. -/
def candlestick_panel (company : String) (stock_data : List ℚ) : ChartPanel :=
  let stock_data_pct := pct_change stock_data
  { title := company ++ " Stock Price"
    xlabel := "Date"
    ylabel := "Price ($)"
    positive_changes := stock_data_pct.map (fun o =>
      match o with
      | some r => decide (0 < r)
      | none => false)
    negative_changes := stock_data_pct.map (fun o =>
      match o with
      | some r => decide (r < 0)
      | none => false) }

/-- Embeds `data[company]` — column lookup, raising `KeyError` (modelled as
`Except.error`) when the name is not a column. -/
def column_of (data : DataFrame) (company : String) : Except String (List ℚ) :=
  match data.cols.lookup company with
  | some ps => Except.ok ps
  | none => Except.error ("KeyError: " ++ company)

/-- Embeds `create_candlestick_charts(data, companies)`: one panel per company,
failing like the Python code does if some company is not a column. -/
def create_candlestick_charts (data : DataFrame) (companies : List String) :
    Except String (List ChartPanel) :=
  companies.mapM (fun company =>
    (column_of data company).map (fun stock_data =>
      candlestick_panel company stock_data))

/-- Result of one pass through the input-validation loop in `main`:
either the loop `continue`s with a message, or it `break`s with the
accepted company list and fetching begins. -/
inductive ValidationResult where
  | needAtLeastTwo
  | invalid (invalid_companies : List String)
  | proceed (companies : List String)
deriving DecidableEq, Repr

/-- Embeds `input().split(",")` followed by `company.strip()` on each entry. -/
def parse_input (line : String) : List String :=
  (line.splitOn ",").map String.trim

/-- One iteration of the `while True` input loop of `main`:
reject with "Please enter at least 2 companies." when fewer than 2 entries,
reject listing `invalid_companies` when some entry is unknown, otherwise
`break` and proceed to fetching. -/
def validate_input (line : String) : ValidationResult :=
  let companies := parse_input line
  if companies.length < 2 then
    ValidationResult.needAtLeastTwo
  else
    let invalid_companies :=
      companies.filter (fun c => !(available_companies.contains c))
    if invalid_companies.isEmpty then
      ValidationResult.proceed companies
    else
      ValidationResult.invalid invalid_companies

/-- Observable effects of the part of `main` after the input loop:
which artefacts were produced and which error message (if any) was
printed by the `except` clause. -/
structure RunOutput where
  heatmap_rendered : Bool
  matrix_printed : Bool
  charts_rendered : Bool
  error_message : Option String
deriving DecidableEq, Repr

/-- The `try`/`except` block of `main` around fetching and rendering: if
the fetch raises, nothing is rendered and the error is reported; if the
fetch succeeds the heatmap is shown and the matrix printed, and the charts
are drawn unless `create_candlestick_charts` raises (`data[company]`). -/
def process_run (fetch_result : Except String DataFrame)
    (companies : List String) : RunOutput :=
  match fetch_result with
  | Except.error e =>
      { heatmap_rendered := false
        matrix_printed := false
        charts_rendered := false
        error_message := some ("Error processing stock data: " ++ e) }
  | Except.ok stock_data =>
      match create_candlestick_charts stock_data companies with
      | Except.ok _ =>
          { heatmap_rendered := true
            matrix_printed := true
            charts_rendered := true
            error_message := none }
      | Except.error e =>
          { heatmap_rendered := true
            matrix_printed := true
            charts_rendered := false
            error_message := some ("Error processing stock data: " ++ e) }

/-! ### Basic facts about `completePairs` -/

theorem completePairs_nil_right (xs : List (Option ℚ)) : completePairs xs [] = [] := by
  cases xs with
  | nil => rfl
  | cons x xs => cases x <;> rfl

theorem completePairs_swap (xs ys : List (Option ℚ)) :
    completePairs ys xs = (completePairs xs ys).map Prod.swap := by
  induction xs generalizing ys with
  | nil => cases ys with
    | nil => rfl
    | cons y ys => cases y <;> rfl
  | cons x xs ih =>
    cases ys with
    | nil => cases x <;> rfl
    | cons y ys =>
      cases x <;> cases y <;> simp [completePairs, ih]

theorem mem_completePairs {xs ys : List (Option ℚ)} {p : ℚ × ℚ}
    (hp : p ∈ completePairs xs ys) : some p.1 ∈ xs ∧ some p.2 ∈ ys := by
  induction xs generalizing ys with
  | nil => simp [completePairs] at hp
  | cons x xs ih =>
    cases ys with
    | nil => rw [completePairs_nil_right] at hp; simp at hp
    | cons y ys =>
      cases x <;> cases y <;> simp only [completePairs, List.mem_cons] at hp ⊢
      · rcases ih hp with ⟨h1, h2⟩; exact ⟨Or.inr h1, Or.inr h2⟩
      · rcases ih hp with ⟨h1, h2⟩; exact ⟨Or.inr h1, Or.inr h2⟩
      · rcases ih hp with ⟨h1, h2⟩; exact ⟨Or.inr h1, Or.inr h2⟩
      · rcases hp with rfl | hp
        · exact ⟨Or.inl rfl, Or.inl rfl⟩
        · rcases ih hp with ⟨h1, h2⟩; exact ⟨Or.inr h1, Or.inr h2⟩

theorem completePairs_self_eq {xs : List (Option ℚ)} {p : ℚ × ℚ}
    (hp : p ∈ completePairs xs xs) : p.1 = p.2 := by
  induction xs with
  | nil => simp [completePairs] at hp
  | cons x xs ih =>
    cases x with
    | none => exact ih hp
    | some a =>
      simp only [completePairs, List.mem_cons] at hp
      rcases hp with hp | hp
      · rw [hp]
      · exact ih hp

/-! ### Basic facts about `centeredSum` -/

theorem centeredSum_nonneg (l : List (ℚ × ℚ)) (f : ℚ × ℚ → ℚ) :
    0 ≤ centeredSum l f f := by
  apply List.sum_nonneg
  intro x hx
  simp only [List.mem_map] at hx
  obtain ⟨p, _, rfl⟩ := hx
  exact mul_self_nonneg _

theorem centeredSum_comm (l : List (ℚ × ℚ)) (f g : ℚ × ℚ → ℚ) :
    centeredSum l f g = centeredSum l g f := by
  unfold centeredSum
  congr 1
  apply List.map_congr_left
  intro p _
  ring

theorem centeredSum_map (l : List (ℚ × ℚ)) (h : ℚ × ℚ → ℚ × ℚ) (f g : ℚ × ℚ → ℚ) :
    centeredSum (l.map h) f g = centeredSum l (fun p => f (h p)) (fun p => g (h p)) := by
  unfold centeredSum
  rw [List.map_map, List.map_map, List.map_map]
  rfl

theorem centeredSum_congr (l : List (ℚ × ℚ)) (f g f0 g0 : ℚ × ℚ → ℚ)
    (hf : ∀ p ∈ l, f p = f0 p) (hg : ∀ p ∈ l, g p = g0 p) :
    centeredSum l f g = centeredSum l f0 g0 := by
  unfold centeredSum
  rw [List.map_congr_left hf, List.map_congr_left hg]
  apply congrArg
  apply List.map_congr_left
  intro p hp
  rw [hf p hp, hg p hp]

theorem centeredSum_const_zero (l : List (ℚ × ℚ)) (f g : ℚ × ℚ → ℚ) (c : ℚ)
    (hc : ∀ p ∈ l, f p = c) : centeredSum l f g = 0 := by
  apply List.sum_eq_zero
  intro x hx
  simp only [List.mem_map] at hx
  obtain ⟨p, hp, rfl⟩ := hx
  have hmap : l.map f = List.replicate l.length c := by
    rw [List.eq_replicate_iff]
    exact ⟨by simp, fun b hb => by
      simp only [List.mem_map] at hb
      obtain ⟨q, hq, rfl⟩ := hb
      exact hc q hq⟩
  have hmean : mean (l.map f) = c := by
    rcases List.eq_nil_or_concat l with rfl | ⟨l2, a, rfl⟩
    · simp at hp
    · rw [hmap]
      unfold mean
      have hn : (((l2.concat a).length : ℕ) : ℚ) ≠ 0 :=
        Nat.cast_ne_zero.mpr (by simp)
      rw [List.sum_replicate, List.length_replicate, nsmul_eq_mul, mul_comm,
        mul_div_assoc, div_self hn, mul_one]
  rw [hc p hp, hmean, sub_self, zero_mul]

theorem sum_map_eq_sum_range (l : List (ℚ × ℚ)) (h : ℚ × ℚ → ℚ) :
    (l.map h).sum = ∑ i ∈ Finset.range l.length, h (l.getD i (0, 0)) := by
  induction l with
  | nil => simp
  | cons a t ih =>
    rw [List.map_cons, List.sum_cons, List.length_cons, Finset.sum_range_succ']
    simp only [List.getD_cons_succ, List.getD_cons_zero]
    rw [ih, add_comm]

/-- Cauchy–Schwarz for the centered sums: the squared covariance is at most
the product of the variances. -/
theorem centeredSum_sq_le (l : List (ℚ × ℚ)) (f g : ℚ × ℚ → ℚ) :
    centeredSum l f g ^ 2 ≤ centeredSum l f f * centeredSum l g g := by
  unfold centeredSum
  rw [sum_map_eq_sum_range, sum_map_eq_sum_range, sum_map_eq_sum_range]
  have hff : ∀ i ∈ Finset.range l.length,
      (f (l.getD i (0, 0)) - mean (l.map f)) * (f (l.getD i (0, 0)) - mean (l.map f)) =
        (f (l.getD i (0, 0)) - mean (l.map f)) ^ 2 := by
    intro i _; ring
  have hgg : ∀ i ∈ Finset.range l.length,
      (g (l.getD i (0, 0)) - mean (l.map g)) * (g (l.getD i (0, 0)) - mean (l.map g)) =
        (g (l.getD i (0, 0)) - mean (l.map g)) ^ 2 := by
    intro i _; ring
  rw [Finset.sum_congr rfl hff, Finset.sum_congr rfl hgg]
  exact Finset.sum_mul_sq_le_sq_mul_sq (Finset.range l.length)
    (fun i => f (l.getD i (0, 0)) - mean (l.map f))
    (fun i => g (l.getD i (0, 0)) - mean (l.map g))

/-! ### Facts about `corr_entry` -/

theorem corr_entry_comm (xs ys : List (Option ℚ)) :
    corr_entry xs ys = corr_entry ys xs := by
  unfold corr_entry
  rw [completePairs_swap xs ys]
  have h11 : centeredSum ((completePairs xs ys).map Prod.swap) Prod.fst Prod.fst =
      centeredSum (completePairs xs ys) Prod.snd Prod.snd := by
    rw [centeredSum_map]; rfl
  have h22 : centeredSum ((completePairs xs ys).map Prod.swap) Prod.snd Prod.snd =
      centeredSum (completePairs xs ys) Prod.fst Prod.fst := by
    rw [centeredSum_map]; rfl
  have h12 : centeredSum ((completePairs xs ys).map Prod.swap) Prod.fst Prod.snd =
      centeredSum (completePairs xs ys) Prod.fst Prod.snd := by
    rw [centeredSum_map]
    have : centeredSum (completePairs xs ys)
        (fun p => Prod.fst p.swap) (fun p => Prod.snd p.swap) =
        centeredSum (completePairs xs ys) Prod.snd Prod.fst := rfl
    rw [this, centeredSum_comm]
  rw [h11, h22, h12]
  by_cases hc : centeredSum (completePairs xs ys) Prod.fst Prod.fst = 0 ∨
      centeredSum (completePairs xs ys) Prod.snd Prod.snd = 0
  · rw [if_pos hc, if_pos (Or.symm hc)]
  · rw [if_neg hc, if_neg (fun h => hc (Or.symm h))]
    rw [mul_comm]

theorem corr_entry_eq_none_left (xs ys : List (Option ℚ))
    (h : centeredSum (completePairs xs ys) Prod.fst Prod.fst = 0) :
    corr_entry xs ys = none := by
  unfold corr_entry
  rw [if_pos (Or.inl h)]

theorem corr_entry_eq_none_right (xs ys : List (Option ℚ))
    (h : centeredSum (completePairs xs ys) Prod.snd Prod.snd = 0) :
    corr_entry xs ys = none := by
  unfold corr_entry
  rw [if_pos (Or.inr h)]

theorem corr_entry_self_eq_one (xs : List (Option ℚ))
    (h : centeredSum (completePairs xs xs) Prod.fst Prod.fst ≠ 0) :
    corr_entry xs xs = some 1 := by
  have hdg : ∀ p ∈ completePairs xs xs, (Prod.snd p : ℚ) = Prod.fst p :=
    fun p hp => (completePairs_self_eq hp).symm
  have h22 : centeredSum (completePairs xs xs) Prod.snd Prod.snd =
      centeredSum (completePairs xs xs) Prod.fst Prod.fst :=
    centeredSum_congr _ _ _ _ _ hdg hdg
  have h12 : centeredSum (completePairs xs xs) Prod.fst Prod.snd =
      centeredSum (completePairs xs xs) Prod.fst Prod.fst :=
    centeredSum_congr _ _ _ _ _ (fun _ _ => rfl) hdg
  have hpos : 0 < centeredSum (completePairs xs xs) Prod.fst Prod.fst :=
    lt_of_le_of_ne (centeredSum_nonneg _ _) (Ne.symm h)
  unfold corr_entry
  rw [if_neg (by rw [h22]; exact fun hc => h (hc.elim id id))]
  have hposR : (0 : ℝ) < ((centeredSum (completePairs xs xs) Prod.fst Prod.fst : ℚ) : ℝ) := by
    exact_mod_cast hpos
  rw [h12, h22, Real.sqrt_mul_self (le_of_lt hposR), div_self (ne_of_gt hposR)]

theorem corr_entry_bounds {xs ys : List (Option ℚ)} {r : ℝ}
    (h : corr_entry xs ys = some r) : -1 ≤ r ∧ r ≤ 1 := by
  unfold corr_entry at h
  by_cases hc : centeredSum (completePairs xs ys) Prod.fst Prod.fst = 0 ∨
      centeredSum (completePairs xs ys) Prod.snd Prod.snd = 0
  · rw [if_pos hc] at h; exact absurd h (by simp)
  · rw [if_neg hc] at h
    push_neg at hc
    set S1 := centeredSum (completePairs xs ys) Prod.fst Prod.fst with hS1
    set S2 := centeredSum (completePairs xs ys) Prod.snd Prod.snd with hS2
    set S12 := centeredSum (completePairs xs ys) Prod.fst Prod.snd with hS12
    have hp1 : 0 < S1 := lt_of_le_of_ne (centeredSum_nonneg _ _) (Ne.symm hc.1)
    have hp2 : 0 < S2 := lt_of_le_of_ne (centeredSum_nonneg _ _) (Ne.symm hc.2)
    have hcs : S12 ^ 2 ≤ S1 * S2 := centeredSum_sq_le _ _ _
    have hp1R : (0 : ℝ) < (S1 : ℝ) := by exact_mod_cast hp1
    have hp2R : (0 : ℝ) < (S2 : ℝ) := by exact_mod_cast hp2
    have hcsR : ((S12 : ℝ)) ^ 2 ≤ (S1 : ℝ) * (S2 : ℝ) := by exact_mod_cast hcs
    have hden : (0 : ℝ) < Real.sqrt ((S1 : ℝ) * (S2 : ℝ)) :=
      Real.sqrt_pos.mpr (mul_pos hp1R hp2R)
    have hr : r = (S12 : ℝ) / Real.sqrt ((S1 : ℝ) * (S2 : ℝ)) := by
      exact (Option.some.injEq .. ▸ h).symm
    have hsq : r ^ 2 ≤ 1 := by
      rw [hr, div_pow, Real.sq_sqrt (le_of_lt (mul_pos hp1R hp2R))]
      exact (div_le_one (mul_pos hp1R hp2R)).mpr hcsR
    have habs : |r| ≤ 1 := (sq_le_one_iff_abs_le_one r).mp hsq
    exact abs_le.mp habs

/-! ### Facts about `pct_change` -/

theorem length_pct_change (prices : List ℚ) :
    (pct_change prices).length = prices.length := by
  cases prices with
  | nil => rfl
  | cons p tail =>
    simp [pct_change, List.length_zip]

theorem pct_change_getD_zero (prices : List ℚ) :
    (pct_change prices).getD 0 none = none := by
  cases prices with
  | nil => rfl
  | cons p tail => rfl

theorem pct_change_getD_succ (prices : List ℚ) (k : ℕ) (hk : k + 1 < prices.length) :
    (pct_change prices).getD (k + 1) none =
      some ((prices.getD (k + 1) 0 - prices.getD k 0) / prices.getD k 0) := by
  cases prices with
  | nil => simp at hk
  | cons p tail =>
    have htail : k < tail.length := by
      simp only [List.length_cons] at hk
      omega
    have hzip : k < ((p :: tail).zip tail).length := by
      simp only [List.length_zip, List.length_cons]
      omega
    have hmap : k < (((p :: tail).zip tail).map
        (fun pq => some ((pq.2 - pq.1) / pq.1))).length := by
      simpa using hzip
    show ((((p :: tail).zip tail).map
        (fun pq => some ((pq.2 - pq.1) / pq.1))).getD k none) = _
    rw [List.getD_eq_getElem _ _ hmap]
    simp only [List.getElem_map, List.getElem_zip]
    rw [List.getD_cons_succ, List.getD_eq_getElem _ _ htail,
      List.getD_eq_getElem _ _ (by simpa using Nat.lt_of_lt_of_le htail (by simp))]

theorem pct_change_const_entries (prices : List ℚ) (c : ℚ)
    (hc : ∀ p ∈ prices, p = c) :
    ∀ o ∈ pct_change prices, ∀ a : ℚ, o = some a → a = 0 := by
  cases prices with
  | nil => intro o ho; simp [pct_change] at ho
  | cons p tail =>
    intro o ho a hoa
    simp only [pct_change, List.mem_cons, List.mem_map] at ho
    rcases ho with rfl | ⟨pq, hpq, rfl⟩
    · exact absurd hoa (by simp)
    · rcases List.of_mem_zip hpq with ⟨h1, h2⟩
      have e1 : pq.1 = c := hc pq.1 h1
      have e2 : pq.2 = c := hc pq.2 (List.mem_cons_of_mem p h2)
      rw [← Option.some.inj hoa, e1, e2, sub_self, zero_div]

/-- A constant price column makes the first components of every pairwise
observation list equal to 0, hence the centered sum of squares vanishes. -/
theorem centeredSum_fst_pct_const (prices : List ℚ) (c : ℚ) (ys : List (Option ℚ))
    (hc : ∀ p ∈ prices, p = c) :
    centeredSum (completePairs (pct_change prices) ys) Prod.fst Prod.fst = 0 := by
  apply centeredSum_const_zero _ _ _ 0
  intro q hq
  have hmem := (mem_completePairs hq).1
  exact pct_change_const_entries prices c hc _ hmem q.1 rfl

theorem centeredSum_snd_pct_const (prices : List ℚ) (c : ℚ) (xs : List (Option ℚ))
    (hc : ∀ p ∈ prices, p = c) :
    centeredSum (completePairs xs (pct_change prices)) Prod.snd Prod.snd = 0 := by
  apply centeredSum_const_zero _ _ _ 0
  intro q hq
  have hmem := (mem_completePairs hq).2
  exact pct_change_const_entries prices c hc _ hmem q.2 rfl

/-! ### Shape and entries of the correlation matrix -/

theorem length_correlation_matrix (data : DataFrame) :
    (correlation_matrix data).length = data.cols.length := by
  simp [correlation_matrix, returns_table]

theorem length_row_correlation_matrix (data : DataFrame) :
    ∀ row ∈ correlation_matrix data, row.length = data.cols.length := by
  intro row hrow
  simp only [correlation_matrix, List.mem_map] at hrow
  obtain ⟨ci, _, rfl⟩ := hrow
  simp [returns_table]

theorem returns_table_getElem (data : DataFrame) (k : ℕ)
    (hk : k < (returns_table data).length) :
    ((returns_table data)[k]).2 = pct_change (data.cols.getD k ("", [])).2 := by
  have hk2 : k < data.cols.length := by
    simpa [returns_table] using hk
  unfold returns_table
  rw [List.getElem_map, List.getD_eq_getElem _ _ hk2]

theorem correlation_matrix_entry (data : DataFrame) (i j : ℕ)
    (hi : i < data.cols.length) (hj : j < data.cols.length) :
    ((correlation_matrix data).getD i []).getD j none =
      corr_entry (pct_change (data.cols.getD i ("", [])).2)
        (pct_change (data.cols.getD j ("", [])).2) := by
  have hi3 : i < (returns_table data).length := by
    simpa [returns_table] using hi
  have hj3 : j < (returns_table data).length := by
    simpa [returns_table] using hj
  unfold correlation_matrix
  have hi4 : i < ((returns_table data).map (fun ci =>
      (returns_table data).map (fun cj => corr_entry ci.2 cj.2))).length := by
    simpa using hi3
  rw [List.getD_eq_getElem _ _ hi4, List.getElem_map]
  have hj4 : j < ((returns_table data).map (fun cj =>
      corr_entry ((returns_table data)[i]).2 cj.2)).length := by
    simpa using hj3
  rw [List.getD_eq_getElem _ _ hj4, List.getElem_map]
  congr 1
  · exact returns_table_getElem data i hi3
  · exact returns_table_getElem data j hj3

theorem correlation_matrix_row_oob (data : DataFrame) (i : ℕ)
    (hi : data.cols.length ≤ i) :
    (correlation_matrix data).getD i [] = [] := by
  apply List.getD_eq_default
  rw [length_correlation_matrix]
  exact hi

theorem correlation_matrix_entry_oob (data : DataFrame) (i j : ℕ)
    (h : data.cols.length ≤ i ∨ data.cols.length ≤ j) :
    ((correlation_matrix data).getD i []).getD j none = none := by
  rcases h with hoob | hoob
  · rw [correlation_matrix_row_oob data i hoob]
    simp
  · rcases lt_or_ge i data.cols.length with hi | hi
    · have hi2 : i < (correlation_matrix data).length := by
        rw [length_correlation_matrix]; exact hi
      rw [List.getD_eq_getElem _ _ hi2]
      apply List.getD_eq_default
      rw [length_row_correlation_matrix data _ (List.getElem_mem hi2)]
      exact hoob
    · rw [correlation_matrix_row_oob data i hi]
      simp

theorem correlation_matrix_symm_entry (data : DataFrame) (i j : ℕ) :
    ((correlation_matrix data).getD i []).getD j none =
      ((correlation_matrix data).getD j []).getD i none := by
  rcases lt_or_ge i data.cols.length with hi | hi
  · rcases lt_or_ge j data.cols.length with hj | hj
    · rw [correlation_matrix_entry data i j hi hj,
        correlation_matrix_entry data j i hj hi]
      exact corr_entry_comm _ _
    · rw [correlation_matrix_entry_oob data i j (Or.inr hj),
        correlation_matrix_entry_oob data j i (Or.inl hj)]
  · rw [correlation_matrix_entry_oob data i j (Or.inl hi),
      correlation_matrix_entry_oob data j i (Or.inr hi)]

/-! ## Claim theorems -/

/-- Claim C1: For every valid selection of at least 2 known companies and every
price table whose columns are those (unique) companies, the correlation
matrix produced by `pct_change` followed by pairwise Pearson correlation is
square with dimension the number of unique selected companies, symmetric,
and has diagonal entry exactly 1 at every company whose returns column has a
nonzero variance (nonzero centered sum of squares). -/
theorem correlation_matrix_square_symm_diag (sel : List String) (data : DataFrame)
    (hlen : 2 ≤ sel.length)
    (hknown : ∀ c ∈ sel, c ∈ available_companies)
    (hcols : data.cols.map Prod.fst = sel.dedup) :
    (correlation_matrix data).length = sel.dedup.length ∧
    (∀ row ∈ correlation_matrix data, row.length = sel.dedup.length) ∧
    (∀ i j : ℕ, ((correlation_matrix data).getD i []).getD j none =
      ((correlation_matrix data).getD j []).getD i none) ∧
    (∀ i : ℕ, i < data.cols.length →
      centeredSum (completePairs (pct_change (data.cols.getD i ("", [])).2)
        (pct_change (data.cols.getD i ("", [])).2)) Prod.fst Prod.fst ≠ 0 →
      ((correlation_matrix data).getD i []).getD i none = some 1) := by
  have hn : data.cols.length = sel.dedup.length := by
    rw [← hcols, List.length_map]
  refine ⟨by rw [length_correlation_matrix, hn], ?_, ?_, ?_⟩
  · intro row hrow
    rw [length_row_correlation_matrix data row hrow, hn]
  · intro i j
    exact correlation_matrix_symm_entry data i j
  · intro i hi hvar
    rw [correlation_matrix_entry data i i hi hi]
    exact corr_entry_self_eq_one _ hvar

/-- Claim C2: The Returns Table is the per-column fractional change: the entry of a column at row `t ≥ 1` is `(price[t] - price[t-1]) / price[t-1]`, row 0 is
missing, and in particular the price series `[100, 110, 99]` yields returns
`[undefined, 0.10, -0.10]`. -/
theorem returns_fractional_change (data : DataFrame) (name : String)
    (prices : List ℚ) (t : ℕ) (hcol : (name, prices) ∈ data.cols)
    (h1 : 1 ≤ t) (h2 : t < prices.length) :
    (name, pct_change prices) ∈ returns_table data ∧
    (pct_change prices).getD t none =
      some ((prices.getD t 0 - prices.getD (t - 1) 0) / prices.getD (t - 1) 0) ∧
    (pct_change prices).getD 0 none = none ∧
    pct_change [100, 110, 99] = [none, some (1/10), some (-(1/10))] := by
  refine ⟨?_, ?_, pct_change_getD_zero prices, by norm_num [pct_change]⟩
  · unfold returns_table
    exact List.mem_map.mpr ⟨(name, prices), hcol, rfl⟩
  · obtain ⟨k, rfl⟩ : ∃ k, t = k + 1 := ⟨t - 1, by omega⟩
    simpa using pct_change_getD_succ prices k h2

/-- Claim C3: Every present (non-missing) value of the correlation matrix lies
in `[-1, 1]`. -/
theorem correlation_values_bounded (data : DataFrame) (i j : ℕ) (r : ℝ)
    (h : ((correlation_matrix data).getD i []).getD j none = some r) :
    -1 ≤ r ∧ r ≤ 1 := by
  rcases lt_or_ge i data.cols.length with hi | hi
  · rcases lt_or_ge j data.cols.length with hj | hj
    · rw [correlation_matrix_entry data i j hi hj] at h
      exact corr_entry_bounds h
    · rw [correlation_matrix_entry_oob data i j (Or.inr hj)] at h
      exact absurd h (by simp)
  · rw [correlation_matrix_entry_oob data i j (Or.inl hi)] at h
    exact absurd h (by simp)

/-- Claim C4: A constant price column never makes the engine fail (the matrix
keeps its full shape) and every matrix entry of a pair involving that column
is the missing value — in particular neither the numeric value 0 nor the
numeric value 1. -/
theorem zero_variance_column_missing (data : DataFrame) (i : ℕ) (c : ℚ)
    (hi : i < data.cols.length)
    (hconst : ∀ p ∈ (data.cols.getD i ("", [])).2, p = c) :
    (correlation_matrix data).length = data.cols.length ∧
    ∀ j : ℕ,
      ((correlation_matrix data).getD i []).getD j none = none ∧
      ((correlation_matrix data).getD j []).getD i none = none ∧
      ((correlation_matrix data).getD i []).getD j none ≠ some (0 : ℝ) ∧
      ((correlation_matrix data).getD i []).getD j none ≠ some (1 : ℝ) := by
  refine ⟨length_correlation_matrix data, ?_⟩
  intro j
  have hrow : ((correlation_matrix data).getD i []).getD j none = none := by
    rcases lt_or_ge j data.cols.length with hj | hj
    · rw [correlation_matrix_entry data i j hi hj]
      exact corr_entry_eq_none_left _ _ (centeredSum_fst_pct_const _ c _ hconst)
    · exact correlation_matrix_entry_oob data i j (Or.inr hj)
  have hcolumn : ((correlation_matrix data).getD j []).getD i none = none := by
    rcases lt_or_ge j data.cols.length with hj | hj
    · rw [correlation_matrix_entry data j i hj hi]
      exact corr_entry_eq_none_right _ _ (centeredSum_snd_pct_const _ c _ hconst)
    · exact correlation_matrix_entry_oob data j i (Or.inl hj)
  exact ⟨hrow, hcolumn, by rw [hrow]; simp, by rw [hrow]; simp⟩

/-- Claim C5: The Symbol Resolver is a pure total function: each of the 15
catalog names maps to its ticker (in particular `resolve "Apple" = "AAPL"`),
and every string outside the catalog is returned unchanged (in particular
`resolve "FAKE" = "FAKE"`). -/
theorem resolver_lookup_or_passthrough (s : String)
    (h : s ∉ company_symbols.map Prod.fst) :
    resolve s = s ∧
    resolve "Apple" = "AAPL" ∧
    resolve "FAKE" = "FAKE" ∧
    ∀ p ∈ company_symbols, resolve p.1 = p.2 := by
  refine ⟨?_, by decide, by decide, by decide⟩
  have hlook : ∀ l : List (String × String), s ∉ l.map Prod.fst → l.lookup s = none := by
    intro l
    induction l with
    | nil => intro _; rfl
    | cons a t ih =>
      intro hm
      simp only [List.map_cons, List.mem_cons] at hm
      push_neg at hm
      have hne : (s == a.1) = false := beq_eq_false_iff_ne.mpr hm.1
      rcases a with ⟨k, v⟩
      simp only [List.lookup]
      rw [hne]
      exact ih hm.2
  unfold resolve
  rw [hlook company_symbols h]

/-- Claim C6: A line of input proceeds to fetching iff splitting on commas and
trimming yields at least 2 entries, all of which are keys of the symbol
table; otherwise the loop reports the problem (too-few message or the list
of offending entries) and does not proceed.  The validated list is exactly
the parsed list. -/
theorem validation_gate (line : String) :
    (available_companies = company_symbols.map Prod.fst) ∧
    (validate_input line = ValidationResult.proceed (parse_input line) ↔
      2 ≤ (parse_input line).length ∧
        ∀ c ∈ parse_input line, c ∈ company_symbols.map Prod.fst) ∧
    ((parse_input line).length < 2 →
      validate_input line = ValidationResult.needAtLeastTwo) ∧
    (¬ (parse_input line).length < 2 →
      (parse_input line).filter (fun c => !(available_companies.contains c)) ≠ [] →
      validate_input line = ValidationResult.invalid
        ((parse_input line).filter (fun c => !(available_companies.contains c)))) ∧
    (∀ cs, validate_input line = ValidationResult.proceed cs → cs = parse_input line) := by
  have hkeys : available_companies = company_symbols.map Prod.fst := by decide
  have hbridge : ∀ c : String,
      (available_companies.contains c = true) ↔ c ∈ available_companies := by
    intro c
    simp
  have hmem : ∀ c : String,
      c ∈ company_symbols.map Prod.fst ↔ available_companies.contains c = true := by
    intro c
    rw [hbridge c, ← hkeys]
  unfold validate_input
  by_cases hshort : (parse_input line).length < 2
  · rw [if_pos hshort]
    refine ⟨hkeys, ?_, fun _ => rfl, fun hc => absurd hshort hc, fun cs hcs => by
      exact absurd hcs (by simp)⟩
    constructor
    · intro hcs
      exact absurd hcs (by simp)
    · intro ⟨h2, _⟩
      omega
  · rw [if_neg hshort]
    by_cases hinv : ((parse_input line).filter
        (fun c => !(available_companies.contains c))).isEmpty
    · rw [if_pos hinv]
      have hall : ∀ c ∈ parse_input line, c ∈ company_symbols.map Prod.fst := by
        intro c hc
        rw [hmem c]
        by_contra hnc
        have hcf : c ∈ (parse_input line).filter
            (fun c => !(available_companies.contains c)) := by
          rw [List.mem_filter]
          refine ⟨hc, ?_⟩
          have hfalse : available_companies.contains c = false := by
            rcases Bool.eq_false_or_eq_true (available_companies.contains c) with hb | hb
            · exact absurd hb hnc
            · exact hb
          rw [hfalse]
          rfl
        rw [List.isEmpty_iff.mp hinv] at hcf
        simp at hcf
      refine ⟨hkeys, ?_, fun hc => absurd hc hshort, fun _ hne => by
        exact absurd (List.isEmpty_iff.mp hinv) hne, fun cs hcs => by
        simpa using hcs.symm⟩
      constructor
      · intro _
        exact ⟨by omega, hall⟩
      · intro _
        rfl
    · rw [if_neg hinv]
      refine ⟨hkeys, ?_, fun hc => absurd hc hshort, fun _ _ => rfl, fun cs hcs => by
        exact absurd hcs (by simp)⟩
      constructor
      · intro hcs
        exact absurd hcs (by simp)
      · intro ⟨_, hall⟩
        exfalso
        apply hinv
        rw [List.isEmpty_iff, List.filter_eq_nil_iff]
        intro c hc
        have hcc := (hmem c).mp (hall c hc)
        rw [hcc]
        simp

/-- Claim C7: When the data fetch fails, the driver reports the error and the
run produces no visualization: no heatmap, no printed matrix, no price
charts. -/
theorem fetch_failure_renders_nothing (e : String) (companies : List String) :
    process_run (Except.error e) companies =
      { heatmap_rendered := false
        matrix_printed := false
        charts_rendered := false
        error_message := some ("Error processing stock data: " ++ e) } ∧
    (process_run (Except.error e) companies).heatmap_rendered = false ∧
    (process_run (Except.error e) companies).matrix_printed = false ∧
    (process_run (Except.error e) companies).charts_rendered = false ∧
    (process_run (Except.error e) companies).error_message ≠ none :=
  ⟨rfl, rfl, rfl, rfl, by simp [process_run]⟩

/-- Claim C8, amended: The Correlation Engine is total on price tables: for
every input table, including tables with fewer than 2 columns, it returns a
full `n × n` matrix (`n` the number of columns) and has no failure path. -/
theorem correlation_engine_total (data : DataFrame) :
    ((create_correlation_heatmap data).2).length = data.cols.length ∧
    ∀ row ∈ (create_correlation_heatmap data).2, row.length = data.cols.length :=
  ⟨length_correlation_matrix data, length_row_correlation_matrix data⟩

/-- The diverging colormap family of matplotlib (scales that diverge from a
midpoint between two hues), per the matplotlib colormap reference; `Blues`
belongs to the sequential family, not to this one. -/
def diverging_colormaps : List String :=
  ["PiYG", "PRGn", "BrBG", "PuOr", "RdGy", "RdBu",
   "RdYlBu", "RdYlGn", "Spectral", "coolwarm", "bwr", "seismic"]

/-- Claim C9, amended: The heatmap renderer is invoked with the sequential
`Blues` colormap — not a diverging color scale — whose normalization is
centered at 0, with fixed color bounds -1 and 1, numeric annotations in
every cell, a square aspect grid with thin (0.5-width) gridlines, and an
overall title. -/
theorem heatmap_invocation_sequential_blues (data : DataFrame) :
    (create_correlation_heatmap data).1.cmap = "Blues" ∧
    (create_correlation_heatmap data).1.cmap ∉ diverging_colormaps ∧
    (create_correlation_heatmap data).1.center = 0 ∧
    (create_correlation_heatmap data).1.vmin = -1 ∧
    (create_correlation_heatmap data).1.vmax = 1 ∧
    (create_correlation_heatmap data).1.annot = true ∧
    (create_correlation_heatmap data).1.square = true ∧
    (create_correlation_heatmap data).1.linewidths = 1/2 ∧
    (create_correlation_heatmap data).1.title = "Stock Price Correlation Heatmap" := by
  refine ⟨rfl, ?_, rfl, rfl, rfl, rfl, rfl, rfl, rfl⟩
  show ("Blues" : String) ∉ diverging_colormaps
  decide

/-- Claim C10: In a price chart panel, a day gets the upward marker iff its
day-over-day change is strictly positive and the downward marker iff it is
strictly negative; no day gets both, and a zero-change day as well as day 0
(whose change is missing) gets neither. -/
theorem chart_marker_characterisation (company : String) (prices : List ℚ)
    (t : ℕ) (ht : t < prices.length) :
    ((candlestick_panel company prices).positive_changes.getD t false = true ↔
      ∃ r : ℚ, (pct_change prices).getD t none = some r ∧ 0 < r) ∧
    ((candlestick_panel company prices).negative_changes.getD t false = true ↔
      ∃ r : ℚ, (pct_change prices).getD t none = some r ∧ r < 0) ∧
    ¬((candlestick_panel company prices).positive_changes.getD t false = true ∧
      (candlestick_panel company prices).negative_changes.getD t false = true) ∧
    (t = 0 →
      (candlestick_panel company prices).positive_changes.getD t false = false ∧
      (candlestick_panel company prices).negative_changes.getD t false = false) ∧
    ((pct_change prices).getD t none = some 0 →
      (candlestick_panel company prices).positive_changes.getD t false = false ∧
      (candlestick_panel company prices).negative_changes.getD t false = false) := by
  have hpt : t < (pct_change prices).length := by
    rw [length_pct_change]
    exact ht
  have hgd : (pct_change prices).getD t none = (pct_change prices)[t] :=
    List.getD_eq_getElem _ _ hpt
  have hpos : (candlestick_panel company prices).positive_changes.getD t false =
      (match (pct_change prices)[t] with
        | some r => decide (0 < r)
        | none => false) := by
    unfold candlestick_panel
    dsimp only
    rw [List.getD_eq_getElem _ _ (by simpa using hpt), List.getElem_map]
  have hneg : (candlestick_panel company prices).negative_changes.getD t false =
      (match (pct_change prices)[t] with
        | some r => decide (r < 0)
        | none => false) := by
    unfold candlestick_panel
    dsimp only
    rw [List.getD_eq_getElem _ _ (by simpa using hpt), List.getElem_map]
  rcases hcase : (pct_change prices)[t] with _ | r
  · rw [hpos, hneg, hgd, hcase]
    refine ⟨by simp, by simp, by simp, fun _ => ⟨rfl, rfl⟩, fun h => ⟨rfl, rfl⟩⟩
  · rw [hpos, hneg, hgd, hcase]
    refine ⟨?_, ?_, ?_, ?_, ?_⟩
    · simp only [decide_eq_true_eq]
      constructor
      · intro hr
        exact ⟨r, rfl, hr⟩
      · rintro ⟨r2, hr2, hr2pos⟩
        rw [Option.some.inj hr2]
        exact hr2pos
    · simp only [decide_eq_true_eq]
      constructor
      · intro hr
        exact ⟨r, rfl, hr⟩
      · rintro ⟨r2, hr2, hr2neg⟩
        rw [Option.some.inj hr2]
        exact hr2neg
    · simp only [decide_eq_true_eq]
      rintro ⟨hp, hn⟩
      exact lt_asymm hp hn
    · intro ht0
      subst ht0
      exfalso
      have h0 : (pct_change prices).getD 0 none = none := pct_change_getD_zero prices
      rw [hgd, hcase] at h0
      simp at h0
    · intro hzero
      rw [Option.some.inj hzero]
      exact ⟨by simp, by simp⟩

/-! ## Concrete sample data and witnesses -/

/-- A valid two-company selection. -/
def sampleSelection : List String := ["Apple", "Microsoft"]

/-- A two-column price table with nonconstant columns. -/
def sampleData : DataFrame :=
  ⟨[("Apple", [100, 110, 99]), ("Microsoft", [50, 60, 55])]⟩

/-- A price table whose second column is a constant price series. -/
def constColumnData : DataFrame :=
  ⟨[("Apple", [100, 110, 99]), ("Microsoft", [50, 50, 50])]⟩

/-- A price table with a single column. -/
def oneColumnData : DataFrame := ⟨[("Apple", [100, 110, 99])]⟩

theorem sample_scatter_ne_zero :
    centeredSum (completePairs (pct_change [100, 110, 99])
      (pct_change [100, 110, 99])) Prod.fst Prod.fst ≠ 0 := by
  norm_num [pct_change, completePairs, centeredSum, mean]

theorem sample_diag_entry :
    ((correlation_matrix sampleData).getD 0 []).getD 0 none = some (1 : ℝ) := by
  rw [correlation_matrix_entry sampleData 0 0 (by simp [sampleData]) (by simp [sampleData])]
  have hcol : (sampleData.cols.getD 0 ("", [])).2 = [100, 110, 99] := rfl
  rw [hcol]
  exact corr_entry_self_eq_one _ sample_scatter_ne_zero

/-- Claim C8, counterexample: On a one-column price table the engine does not
propagate an explicit error: it returns the well-formed `1 × 1` matrix
`[[1]]`. -/
theorem one_column_yields_matrix_not_error :
    oneColumnData.cols.length < 2 ∧
    (create_correlation_heatmap oneColumnData).2 = [[some (1 : ℝ)]] := by
  refine ⟨by decide, ?_⟩
  show correlation_matrix oneColumnData = _
  unfold correlation_matrix returns_table oneColumnData
  simp only [List.map_cons, List.map_nil]
  rw [corr_entry_self_eq_one _ sample_scatter_ne_zero]

/-- Claim C9, counterexample: the heatmap invocation on the sample table
does not use a diverging color scale — the colormap passed is `Blues`,
which is a sequential colormap, not a member of the diverging family. -/
theorem heatmap_cmap_not_diverging :
    (create_correlation_heatmap sampleData).1.cmap = "Blues" ∧
    (create_correlation_heatmap sampleData).1.cmap ∉ diverging_colormaps :=
  ⟨rfl, by decide⟩

/-- Witness for C1 at the sample selection and table. -/
theorem correlation_matrix_square_symm_diag_witness :
    (2 ≤ sampleSelection.length ∧
      (∀ c ∈ sampleSelection, c ∈ available_companies) ∧
      sampleData.cols.map Prod.fst = sampleSelection.dedup) ∧
    ((correlation_matrix sampleData).length = sampleSelection.dedup.length ∧
      (∀ row ∈ correlation_matrix sampleData,
        row.length = sampleSelection.dedup.length) ∧
      (∀ i j : ℕ, ((correlation_matrix sampleData).getD i []).getD j none =
        ((correlation_matrix sampleData).getD j []).getD i none) ∧
      (∀ i : ℕ, i < sampleData.cols.length →
        centeredSum (completePairs (pct_change (sampleData.cols.getD i ("", [])).2)
          (pct_change (sampleData.cols.getD i ("", [])).2)) Prod.fst Prod.fst ≠ 0 →
        ((correlation_matrix sampleData).getD i []).getD i none = some 1)) :=
  ⟨⟨by decide, by decide, by decide⟩,
    correlation_matrix_square_symm_diag sampleSelection sampleData
      (by decide) (by decide) (by decide)⟩

/-- Witness for C2 at the series `[100, 110, 99]` and row 1. -/
theorem returns_fractional_change_witness :
    (("Apple", ([100, 110, 99] : List ℚ)) ∈ sampleData.cols ∧
      1 ≤ 1 ∧ 1 < ([100, 110, 99] : List ℚ).length) ∧
    (("Apple", pct_change [100, 110, 99]) ∈ returns_table sampleData ∧
      (pct_change [100, 110, 99]).getD 1 none =
        some ((([100, 110, 99] : List ℚ).getD 1 0 -
          ([100, 110, 99] : List ℚ).getD 0 0) / ([100, 110, 99] : List ℚ).getD 0 0) ∧
      (pct_change [100, 110, 99]).getD 0 none = none ∧
      pct_change [100, 110, 99] = [none, some (1/10), some (-(1/10))]) :=
  ⟨⟨by simp [sampleData], by decide, by decide⟩,
    returns_fractional_change sampleData "Apple" [100, 110, 99] 1
      (by simp [sampleData]) (by decide) (by decide)⟩

/-- Witness for C3 at the defined diagonal entry of the sample table. -/
theorem correlation_values_bounded_witness :
    ((correlation_matrix sampleData).getD 0 []).getD 0 none = some (1 : ℝ) ∧
    (-1 ≤ (1 : ℝ) ∧ (1 : ℝ) ≤ 1) :=
  ⟨sample_diag_entry,
    correlation_values_bounded sampleData 0 0 1 sample_diag_entry⟩

/-- Witness for C4 at the constant second column of `constColumnData`. -/
theorem zero_variance_column_missing_witness :
    (1 < constColumnData.cols.length ∧
      ∀ p ∈ (constColumnData.cols.getD 1 ("", [])).2, p = (50 : ℚ)) ∧
    ((correlation_matrix constColumnData).length = constColumnData.cols.length ∧
      ∀ j : ℕ,
        ((correlation_matrix constColumnData).getD 1 []).getD j none = none ∧
        ((correlation_matrix constColumnData).getD j []).getD 1 none = none ∧
        ((correlation_matrix constColumnData).getD 1 []).getD j none ≠ some (0 : ℝ) ∧
        ((correlation_matrix constColumnData).getD 1 []).getD j none ≠ some (1 : ℝ)) :=
  ⟨⟨by decide, by decide⟩,
    zero_variance_column_missing constColumnData 1 50 (by decide) (by decide)⟩

/-- Witness for C5 at the unknown name `"FAKE"`. -/
theorem resolver_lookup_or_passthrough_witness :
    ("FAKE" ∉ company_symbols.map Prod.fst) ∧
    (resolve "FAKE" = "FAKE" ∧
      resolve "Apple" = "AAPL" ∧
      resolve "FAKE" = "FAKE" ∧
      ∀ p ∈ company_symbols, resolve p.1 = p.2) :=
  ⟨by decide, resolver_lookup_or_passthrough "FAKE" (by decide)⟩

/-- Witness for C10 at the series `[100, 110, 99]` and day 1. -/
theorem chart_marker_characterisation_witness :
    (1 < ([100, 110, 99] : List ℚ).length) ∧
    (((candlestick_panel "Apple" [100, 110, 99]).positive_changes.getD 1 false = true ↔
        ∃ r : ℚ, (pct_change [100, 110, 99]).getD 1 none = some r ∧ 0 < r) ∧
      ((candlestick_panel "Apple" [100, 110, 99]).negative_changes.getD 1 false = true ↔
        ∃ r : ℚ, (pct_change [100, 110, 99]).getD 1 none = some r ∧ r < 0) ∧
      ¬((candlestick_panel "Apple" [100, 110, 99]).positive_changes.getD 1 false = true ∧
        (candlestick_panel "Apple" [100, 110, 99]).negative_changes.getD 1 false = true) ∧
      ((1 : ℕ) = 0 →
        (candlestick_panel "Apple" [100, 110, 99]).positive_changes.getD 1 false = false ∧
        (candlestick_panel "Apple" [100, 110, 99]).negative_changes.getD 1 false = false) ∧
      ((pct_change [100, 110, 99]).getD 1 none = some 0 →
        (candlestick_panel "Apple" [100, 110, 99]).positive_changes.getD 1 false = false ∧
        (candlestick_panel "Apple" [100, 110, 99]).negative_changes.getD 1 false = false)) :=
  ⟨by decide, chart_marker_characterisation "Apple" [100, 110, 99] 1 (by decide)⟩

end AlphaIntelligence
